import Mathlib

/-!
Verification of the migrations-tool resolution and execution engine
(`src/migrations_tool/migration.py`) against its specification.

The Python source is embedded shallowly:

* the resolver methods `MigrationTool.list_migrations_to_upgrade` /
  `list_migrations_to_downgrade` become pure functions over the two lists
  they compute from (`existing_files`, `applied_files`); the Python
  `raise ValueError` paths become `Except.error` values of `ResolveError`;
* Python truth-testing of the optional `target_filename` argument
  (`if target_filename:`) is modelled exactly: the argument is an
  `Option String`, and both `none` and `some ""` are falsy;
* `list.index` becomes `List.indexOf`, `l[:n]` becomes `List.take n`,
  list comprehensions become `List.filter`.
-/

namespace MigrationsTool

/-- Kernel-reducible decision procedure for string comparison, routed
through the underlying character lists so that `decide` can evaluate
concrete comparisons. -/
instance (priority := 2000) decStringLT : DecidableRel (fun a b : String => a < b) :=
  fun a b => decidable_of_iff (a.toList < b.toList) String.lt_iff_toList_lt.symm

/-- Kernel-reducible decision procedure for string order, routed through
the underlying character lists so that `decide` can evaluate concrete
comparisons. -/
instance (priority := 2000) decStringLE : DecidableRel (fun a b : String => a ≤ b) :=
  fun a b => decidable_of_iff (a.toList ≤ b.toList) String.le_iff_toList_le.symm

/-- Errors raised by resolution. The Python code raises `ValueError` with
distinct messages; this inductive keeps the two distinct failure kinds
("Target migration ... not found" vs "... not found in applied files"). -/
inductive ResolveError where
  | targetNotFound (target : String)
  | targetNotApplied (target : String)
deriving DecidableEq

/-- Embedding of `MigrationTool.list_migrations_to_upgrade` (migration.py
lines 156-181), as a function of the locals `existing_files` and
`applied_files` it reads. `migrations` is the list comprehension
`[f for f in existing_files if f not in applied_files]`; the `target`
branch runs only when `target_filename` is truthy in Python (not `None`
and not the empty string); the inner `try` around `existing_files.index`
is unreachable because membership was just checked, so `indexOf` is exact. -/
def list_migrations_to_upgrade (existing_files applied_files : List String)
    (target_filename : Option String) : Except ResolveError (List String) :=
  let migrations := existing_files.filter (fun f => !(applied_files.contains f))
  match target_filename with
  | none => Except.ok migrations
  | some t =>
    if t = "" then Except.ok migrations
    else if !(existing_files.contains t) then Except.error (ResolveError.targetNotFound t)
    else
      let target_index := existing_files.indexOf t
      Except.ok (migrations.filter (fun f => decide (existing_files.indexOf f ≤ target_index)))

/-- Embedding of `MigrationTool.list_migrations_to_downgrade` (migration.py
lines 183-212). `migrations` is `list(reversed(applied_files))`; a truthy
target must be in `existing_files` (else `ValueError` "not found in
existing_files"), then `migrations.index(target_filename)` raises exactly
when the target is not among the applied files; the final Python guard
`if target_filename in migrations` is always true at that point, and the
result is the slice `migrations[:target_index]`. -/
def list_migrations_to_downgrade (existing_files applied_files : List String)
    (target_filename : Option String) : Except ResolveError (List String) :=
  let migrations := applied_files.reverse
  match target_filename with
  | none => Except.ok migrations
  | some t =>
    if t = "" then Except.ok migrations
    else if !(existing_files.contains t) then Except.error (ResolveError.targetNotFound t)
    else if !(migrations.contains t) then Except.error (ResolveError.targetNotApplied t)
    else
      let target_index := migrations.indexOf t
      Except.ok (migrations.take target_index)

/-- Membership in the pending list computed by upgrade resolution. -/
theorem mem_pending {existing_files applied_files : List String} {f : String} :
    f ∈ existing_files.filter (fun g => !(applied_files.contains g)) ↔
      f ∈ existing_files ∧ f ∉ applied_files := by
  simp [List.mem_filter]

/-- In a strictly sorted list, `indexOf` is strictly monotone with respect
to the order of the elements. -/
theorem indexOf_lt_indexOf_of_sorted {l : List String}
    (hl : l.Sorted (· < ·)) {a b : String} (ha : a ∈ l) (hb : b ∈ l)
    (hab : a < b) : l.indexOf a < l.indexOf b := by
  induction l with
  | nil => cases ha
  | cons x xs ih =>
    rcases List.sorted_cons.mp hl with ⟨hx, hxs⟩
    by_cases hax : a = x
    · have hbx : b ≠ x := by
        intro h
        rw [hax, h] at hab
        exact lt_irrefl x hab
      have hb' : b ∈ xs := (List.mem_cons.mp hb).resolve_left hbx
      rw [hax, List.indexOf_cons_self, List.indexOf_cons_ne _ (Ne.symm hbx)]
      exact Nat.succ_pos _
    · have ha' : a ∈ xs := (List.mem_cons.mp ha).resolve_left hax
      have hbx : b ≠ x := by
        intro h
        rw [h] at hab
        exact lt_asymm hab (hx a ha')
      have hb' : b ∈ xs := (List.mem_cons.mp hb).resolve_left hbx
      rw [List.indexOf_cons_ne _ (Ne.symm hax), List.indexOf_cons_ne _ (Ne.symm hbx)]
      exact Nat.succ_lt_succ (ih hxs ha' hb')

/-- Filtering a strictly sorted list with a predicate that is downward
closed along the order yields an initial segment of the list. -/
theorem filter_isPrefix_of_downward_closed {l : List String}
    (hl : l.Sorted (· < ·)) (p : String → Bool)
    (hdc : ∀ a b, a ∈ l → b ∈ l → a < b → p b = true → p a = true) :
    l.filter p <+: l := by
  induction l with
  | nil => exact ⟨[], rfl⟩
  | cons x xs ih =>
    rcases List.sorted_cons.mp hl with ⟨hx, hxs⟩
    by_cases hpx : p x = true
    · rw [List.filter_cons_of_pos hpx]
      rcases ih hxs (fun a b ha hb => hdc a b (List.mem_cons_of_mem _ ha)
        (List.mem_cons_of_mem _ hb)) with ⟨t, ht⟩
      exact ⟨t, by rw [List.cons_append, ht]⟩
    · have hnil : xs.filter p = [] := by
        apply List.filter_eq_nil_iff.mpr
        intro b hb hpb
        exact hpx (hdc x b (List.mem_cons_self x xs) (List.mem_cons_of_mem _ hb)
          (hx b hb) hpb)
      rw [List.filter_cons_of_neg hpx, hnil]
      exact ⟨x :: xs, rfl⟩

/-- Claim C1: upgrade resolution. With no target, `list_migrations_to_upgrade`
returns exactly the discovered identifiers not in `applied` in discovered
order (hence sorted ascending, and disjoint from `applied`); with a
non-empty target belonging to `discovered`, it returns the initial segment
of that pending list consisting of the elements whose index in
`discovered` is at most the index of the target in `discovered`. -/
theorem upgrade_resolution (discovered applied : List String)
    (hs : discovered.Sorted (· < ·)) :
    (list_migrations_to_upgrade discovered applied none =
        Except.ok (discovered.filter (fun f => !(applied.contains f))) ∧
      (discovered.filter (fun f => !(applied.contains f))).Sorted (· < ·) ∧
      ∀ f ∈ discovered.filter (fun f => !(applied.contains f)), f ∉ applied) ∧
    ∀ t, t ∈ discovered → t ≠ "" →
      ∃ r, list_migrations_to_upgrade discovered applied (some t) = Except.ok r ∧
        r <+: discovered.filter (fun f => !(applied.contains f)) ∧
        ∀ f, f ∈ r ↔
          (f ∈ discovered.filter (fun g => !(applied.contains g)) ∧
            discovered.indexOf f ≤ discovered.indexOf t) := by
  constructor
  · refine ⟨rfl, hs.filter _, ?_⟩
    intro f hf
    exact (mem_pending.mp hf).2
  · intro t ht hne
    have hcont : discovered.contains t = true := List.elem_eq_true_of_mem ht
    refine ⟨(discovered.filter (fun f => !(applied.contains f))).filter
      (fun f => decide (discovered.indexOf f ≤ discovered.indexOf t)), ?_, ?_, ?_⟩
    · simp only [list_migrations_to_upgrade, if_neg hne, hcont, Bool.not_true,
        Bool.false_eq_true, if_false]
    · apply filter_isPrefix_of_downward_closed (hs.filter _)
      intro a b hma hmb hab hpb
      have hb := decide_eq_true_eq.mp hpb
      apply decide_eq_true_eq.mpr
      exact le_trans (le_of_lt (indexOf_lt_indexOf_of_sorted hs
        (mem_pending.mp hma).1 (mem_pending.mp hmb).1 hab)) hb
    · intro f
      simp [List.mem_filter]
      tauto

/-- Witness for C1: a concrete run with `discovered = [a, b, c]`,
`applied = [a]`, target `b`: the resolved plan is `[b]`. -/
theorem upgrade_resolution_witness :
    ∃ r, list_migrations_to_upgrade ["a", "b", "c"] ["a"] (some "b") = Except.ok r ∧
      r <+: (["a", "b", "c"].filter (fun f => !((["a"] : List String).contains f))) ∧
      ∀ f, f ∈ r ↔
        (f ∈ (["a", "b", "c"].filter (fun g => !((["a"] : List String).contains g))) ∧
          (["a", "b", "c"] : List String).indexOf f ≤
            (["a", "b", "c"] : List String).indexOf "b") :=
  (upgrade_resolution ["a", "b", "c"] ["a"] (by decide)).2 "b" (by decide) (by decide)

/-- The slice of a list strictly before the first occurrence of an element
never contains that element. -/
theorem not_mem_take_indexOf (a : String) (l : List String) :
    a ∉ l.take (l.indexOf a) := by
  induction l with
  | nil => simp
  | cons x xs ih =>
    by_cases hax : x = a
    · rw [hax, List.indexOf_cons_self]
      simp
    · rw [List.indexOf_cons_ne _ hax, List.take_succ_cons]
      intro hmem
      rcases List.mem_cons.mp hmem with h | h
      · exact hax h.symm
      · exact ih h

/-- Claim C2: downgrade resolution. With no target,
`list_migrations_to_downgrade` returns the reversal of the applied list in
full; with a non-empty target that is in `existing` and appears in
`applied.reverse`, it returns the slice of `applied.reverse` strictly
before the target's position, so the target itself is never in the result,
and if the target is the most recently applied unit the result is empty. -/
theorem downgrade_resolution (existing applied : List String)
    (hs : applied.Sorted (· < ·)) :
    list_migrations_to_downgrade existing applied none = Except.ok applied.reverse ∧
    ∀ t, t ∈ existing → t ∈ applied.reverse → t ≠ "" →
      list_migrations_to_downgrade existing applied (some t) =
          Except.ok (applied.reverse.take (applied.reverse.indexOf t)) ∧
        t ∉ applied.reverse.take (applied.reverse.indexOf t) ∧
        ∀ rest, applied.reverse = t :: rest →
          applied.reverse.take (applied.reverse.indexOf t) = [] := by
  refine ⟨rfl, ?_⟩
  intro t hte hta hne
  have hce : existing.contains t = true := List.elem_eq_true_of_mem hte
  have hca : applied.reverse.contains t = true := List.elem_eq_true_of_mem hta
  refine ⟨?_, not_mem_take_indexOf t applied.reverse, ?_⟩
  · simp only [list_migrations_to_downgrade, if_neg hne, hce, hca, Bool.not_true,
      Bool.false_eq_true, if_false]
  · intro rest hrev
    rw [hrev, List.indexOf_cons_self, List.take_zero]

/-- Witness for C2: with `existing = [a, b]`, `applied = [a, b]` and target
`b` (the most recently applied unit), the downgrade plan is empty. -/
theorem downgrade_resolution_witness :
    list_migrations_to_downgrade ["a", "b"] ["a", "b"] (some "b") =
        Except.ok ((["a", "b"] : List String).reverse.take
          ((["a", "b"] : List String).reverse.indexOf "b")) ∧
      "b" ∉ (["a", "b"] : List String).reverse.take
        ((["a", "b"] : List String).reverse.indexOf "b") ∧
      ∀ rest, (["a", "b"] : List String).reverse = "b" :: rest →
        (["a", "b"] : List String).reverse.take
          ((["a", "b"] : List String).reverse.indexOf "b") = [] :=
  (downgrade_resolution ["a", "b"] ["a", "b"] (by decide)).2 "b"
    (by decide) (by decide) (by decide)

/-- Claim C6: target validation fails closed. For every non-empty target
not in the discovered list, both resolutions fail with `targetNotFound`;
for a target in the discovered list but not among the applied ones,
downgrade resolution fails with `targetNotApplied`. The resolver functions
are pure: an error result carries no new ledger and no execution, so
retrying after fixing the input is safe by construction. -/
theorem target_validation (existing applied : List String) (t : String)
    (hne : t ≠ "") :
    (t ∉ existing →
      list_migrations_to_upgrade existing applied (some t) =
          Except.error (ResolveError.targetNotFound t) ∧
        list_migrations_to_downgrade existing applied (some t) =
          Except.error (ResolveError.targetNotFound t)) ∧
    (t ∈ existing → t ∉ applied.reverse →
      list_migrations_to_downgrade existing applied (some t) =
        Except.error (ResolveError.targetNotApplied t)) := by
  constructor
  · intro hnm
    have hc : existing.contains t = false := by
      rw [← Bool.not_eq_true]
      intro h
      exact hnm (List.mem_of_elem_eq_true h)
    constructor
    · simp only [list_migrations_to_upgrade, if_neg hne, hc, Bool.not_false, if_true]
    · simp only [list_migrations_to_downgrade, if_neg hne, hc, Bool.not_false, if_true]
  · intro hm hna
    have hce : existing.contains t = true := List.elem_eq_true_of_mem hm
    have hca : applied.reverse.contains t = false := by
      rw [← Bool.not_eq_true]
      intro h
      exact hna (List.mem_of_elem_eq_true h)
    simp only [list_migrations_to_downgrade, if_neg hne, hce, hca, Bool.not_true,
      Bool.false_eq_true, if_false, Bool.not_false, if_true]

/-- Witness for C6: the unknown target `zzz` is rejected by both
resolutions over `existing = [a]`, `applied = [a]`, and the discovered but
never applied target `b` is rejected by downgrade resolution over
`existing = [a, b]`, `applied = [a]`. -/
theorem target_validation_witness :
    (list_migrations_to_upgrade ["a"] ["a"] (some "zzz") =
        Except.error (ResolveError.targetNotFound "zzz") ∧
      list_migrations_to_downgrade ["a"] ["a"] (some "zzz") =
        Except.error (ResolveError.targetNotFound "zzz")) ∧
    list_migrations_to_downgrade ["a", "b"] ["a"] (some "b") =
      Except.error (ResolveError.targetNotApplied "b") :=
  ⟨(target_validation ["a"] ["a"] "zzz" (by decide)).1 (by decide),
    (target_validation ["a", "b"] ["a"] "b" (by decide)).2 (by decide) (by decide)⟩

/-- Claim C9 (implicit): an empty-string target is treated as no target at
all, because the Python guard `if target_filename:` is false for the empty
string. Upgrade resolution returns the full pending list, downgrade
resolution returns all applied identifiers reversed, and neither fails,
even though the empty string is not a member of the discovered list. -/
theorem empty_string_target (existing applied : List String) :
    list_migrations_to_upgrade existing applied (some "") =
        Except.ok (existing.filter (fun f => !(applied.contains f))) ∧
      list_migrations_to_upgrade existing applied (some "") =
        list_migrations_to_upgrade existing applied none ∧
      list_migrations_to_downgrade existing applied (some "") =
        Except.ok applied.reverse ∧
      list_migrations_to_downgrade existing applied (some "") =
        list_migrations_to_downgrade existing applied none :=
  ⟨rfl, rfl, rfl, rfl⟩

/-!
Executor model. A migration unit's loaded code is a `MigrationModule`
(migration.py `MigrationModule` protocol): a pair of capabilities acting
on an opaque database state `Db`, either returning the updated state or
failing (a Python exception becomes `Except.error`). The persisted ledger
(`migration_history` table) is tracked as the list of recorded filenames;
the `executed_at` column carries no information any claim depends on and
is therefore not tracked by the executor state. `MigrationTool.apply`
(migration.py lines 225-235) runs the capability and the ledger mutation
inside one `Session.begin` block: on an exception the transaction is
rolled back, so the model returns the error without touching the state;
on success both the schema effect and the ledger mutation commit together.
`lazy_execute` (lines 214-223) drains the Python generator: the result is
the list of identifiers yielded before any failure, the resulting state,
and the failure (if any) paired with the identifier being processed when
it occurred.
-/

/-- Loaded migration code: forward and backward capabilities over an
opaque database state, matching the `MigrationModule` protocol. -/
structure MigrationModule (Db E : Type) where
  upgradeFn : Db -> Except E Db
  downgradeFn : Db -> Except E Db

/-- Combined database state: the opaque schema/data state plus the
`migration_history` ledger contents (recorded filenames). -/
structure DBState (Db : Type) where
  db : Db
  ledger : List String
deriving DecidableEq

/-- Embedding of `save_migration_history` (migration.py lines 64-72):
insert one history row for `filename`. -/
def save_migration_history (filename : String) (ledger : List String) : List String :=
  ledger ++ [filename]

/-- Embedding of `delete_migration_history` (migration.py lines 75-79):
delete every history row whose filename equals `filename`. -/
def delete_migration_history (filename : String) (ledger : List String) : List String :=
  ledger.filter (fun f => !(f == filename))

/-- Ledger mutation selected by direction, as in `lazy_execute`:
`db_update = save_migration_history if upgrade else delete_migration_history`. -/
def db_update (upgrade : Bool) : String -> List String -> List String :=
  if upgrade then save_migration_history else delete_migration_history

/-- Capability selected by direction, as in `lazy_execute`:
`function_to_apply = module.upgrade if upgrade else module.downgrade`. -/
def select_capability {Db E : Type} (upgrade : Bool) (m : MigrationModule Db E) :
    Db -> Except E Db :=
  if upgrade then m.upgradeFn else m.downgradeFn

/-- Upgrade direction selects the forward capability. -/
theorem select_capability_true {Db E : Type} (m : MigrationModule Db E) :
    select_capability true m = m.upgradeFn := rfl

/-- Upgrade direction selects the history insertion. -/
theorem db_update_true : db_update true = save_migration_history := rfl

/-- Embedding of `MigrationTool.apply` (migration.py lines 225-235): one
unit-of-work running `function_to_apply` and then the ledger mutation; a
failure rolls the whole transaction back (the caller keeps the unchanged
state), success commits both effects together. -/
def apply {Db E : Type} (filename : String) (function_to_apply : Db -> Except E Db)
    (db_upd : String -> List String -> List String) (s : DBState Db) :
    Except E (DBState Db) :=
  match function_to_apply s.db with
  | Except.error e => Except.error e
  | Except.ok db2 => Except.ok (DBState.mk db2 (db_upd filename s.ledger))

/-- Embedding of `MigrationTool.lazy_execute` (migration.py lines 214-223),
fully drained. `load` models `self.load` (dynamic module loading, which may
itself fail, e.g. `FileNotFoundError`). Returns the identifiers yielded
before any failure, the final state, and the failure (if any) tagged with
the identifier being processed when it was raised. -/
def lazy_execute {Db E : Type} (load : String -> Except E (MigrationModule Db E))
    (files : List String) (upgrade : Bool) (s : DBState Db) :
    List String × DBState Db × Option (String × E) :=
  match files with
  | [] => ([], s, none)
  | file :: rest =>
    match load file with
    | Except.error e => ([], s, some (file, e))
    | Except.ok m =>
      match apply file (select_capability upgrade m) (db_update upgrade) s with
      | Except.error e => ([], s, some (file, e))
      | Except.ok s2 =>
        let res := lazy_execute load rest upgrade s2
        (file :: res.1, res.2.1, res.2.2)

/-- One successful upgrade step appends exactly the executed filename to
the ledger. -/
theorem apply_upgrade_ledger {Db E : Type} (filename : String)
    (fn : Db -> Except E Db) (s s2 : DBState Db)
    (h : apply filename fn (db_update true) s = Except.ok s2) :
    s2.ledger = s.ledger ++ [filename] := by
  unfold apply at h
  cases hc : fn s.db with
  | error e => rw [hc] at h; cases h
  | ok db2 =>
    rw [hc] at h
    cases h
    rfl

/-- A fully successful run executes every file given to it. -/
theorem lazy_execute_done_of_none {Db E : Type}
    (load : String -> Except E (MigrationModule Db E)) (files : List String)
    (upgrade : Bool) (s s1 : DBState Db) (done : List String)
    (h : lazy_execute load files upgrade s = (done, s1, none)) : done = files := by
  induction files generalizing s done with
  | nil =>
    unfold lazy_execute at h
    exact congrArg Prod.fst h.symm
  | cons f rest ih =>
    unfold lazy_execute at h
    cases hl : load f with
    | error e =>
      simp only [hl] at h
      simp at h
    | ok m =>
      simp only [hl] at h
      cases ha : apply f (select_capability upgrade m) (db_update upgrade) s with
      | error e =>
        simp only [ha] at h
        simp at h
      | ok s2 =>
        simp only [ha] at h
        rcases hres : lazy_execute load rest upgrade s2 with ⟨a, b, c⟩
        rw [hres] at h
        simp only [Prod.mk.injEq] at h
        obtain ⟨h1, h2, h3⟩ := h
        subst h2
        subst h3
        rw [← h1, ih s2 a hres]

/-- A fully successful upgrade run appends exactly the executed files, in
order, to the ledger. -/
theorem lazy_execute_ledger_of_success {Db E : Type}
    (load : String -> Except E (MigrationModule Db E)) (files : List String)
    (s s1 : DBState Db)
    (h : lazy_execute load files true s = (files, s1, none)) :
    s1.ledger = s.ledger ++ files := by
  induction files generalizing s with
  | nil =>
    unfold lazy_execute at h
    have hss : s = s1 := congrArg (fun p => p.2.1) h
    rw [← hss]
    simp
  | cons f rest ih =>
    unfold lazy_execute at h
    cases hl : load f with
    | error e =>
      simp only [hl] at h
      simp at h
    | ok m =>
      simp only [hl] at h
      cases ha : apply f (select_capability true m) (db_update true) s with
      | error e =>
        simp only [ha] at h
        simp at h
      | ok s2 =>
        simp only [ha] at h
        rcases hres : lazy_execute load rest true s2 with ⟨a, b, c⟩
        rw [hres] at h
        simp only [Prod.mk.injEq, List.cons.injEq] at h
        obtain ⟨⟨-, h1⟩, h2, h3⟩ := h
        subst h1
        subst h2
        subst h3
        rw [ih s2 hres, apply_upgrade_ledger f _ s s2 ha, List.append_assoc]
        rfl

/-- Claim C3: the executor stops on the first failure. If every unit of
`pre` succeeds from state `s0` (reaching `s1`), the module for `uk` loads
but its forward capability fails on `s1`, then running
`pre ++ uk :: post` executes exactly `pre`, leaves the state reached after
`pre` (each `pre` unit recorded in the ledger), records nothing for `uk`,
and surfaces the failure paired with `uk`. The units of `post` are never
attempted: `post` is universally quantified and absent from the result. -/
theorem executor_stop_on_first_failure {Db E : Type}
    (load : String -> Except E (MigrationModule Db E))
    (pre post : List String) (uk : String) (s0 s1 : DBState Db)
    (mk : MigrationModule Db E) (e : E)
    (hpre : lazy_execute load pre true s0 = (pre, s1, none))
    (hload : load uk = Except.ok mk)
    (hfail : mk.upgradeFn s1.db = Except.error e)
    (hledger0 : uk ∉ s0.ledger) (hukpre : uk ∉ pre) :
    lazy_execute load (pre ++ uk :: post) true s0 = (pre, s1, some (uk, e)) ∧
      (∀ f ∈ pre, f ∈ s1.ledger) ∧ uk ∉ s1.ledger := by
  have hled : s1.ledger = s0.ledger ++ pre := lazy_execute_ledger_of_success load pre s0 s1 hpre
  refine ⟨?_, ?_, ?_⟩
  · clear hled
    induction pre generalizing s0 with
    | nil =>
      have hs : s0 = s1 := congrArg (fun p => p.2.1) hpre
      subst hs
      have happ : apply uk (select_capability true mk) (db_update true) s0 =
          Except.error e := by
        rw [select_capability_true]
        unfold apply
        rw [hfail]
      simp only [List.nil_append, lazy_execute, hload, happ]
    | cons f rest ih =>
      unfold lazy_execute at hpre
      cases hl : load f with
      | error e2 =>
        simp only [hl] at hpre
        simp at hpre
      | ok m =>
        simp only [hl] at hpre
        cases ha : apply f (select_capability true m) (db_update true) s0 with
        | error e2 =>
          simp only [ha] at hpre
          simp at hpre
        | ok s2 =>
          simp only [ha] at hpre
          rcases hres : lazy_execute load rest true s2 with ⟨a, b, c⟩
          rw [hres] at hpre
          simp only [Prod.mk.injEq, List.cons.injEq] at hpre
          obtain ⟨⟨-, h1⟩, h2, h3⟩ := hpre
          rw [h1, h2, h3] at hres
          have huk2 : uk ∉ s2.ledger := by
            rw [apply_upgrade_ledger f _ s0 s2 ha]
            intro hmem
            rcases List.mem_append.mp hmem with hmem2 | hmem2
            · exact hledger0 hmem2
            · exact hukpre (by
                rw [List.mem_singleton.mp hmem2]
                exact List.mem_cons_self f rest)
          have hukrest : uk ∉ rest := fun hm => hukpre (List.mem_cons_of_mem f hm)
          have hstep := ih s2 hres huk2 hukrest
          simp only [List.cons_append, lazy_execute, hl, ha, List.append_eq] at hstep ⊢
          rw [hstep]
  · intro f hf
    rw [hled]
    exact List.mem_append_right _ hf
  · rw [hled]
    intro hmem
    rcases List.mem_append.mp hmem with hmem2 | hmem2
    · exact hledger0 hmem2
    · exact hukpre hmem2

/-- Witness for C3: with units `a` (succeeds), `b` (fails), `c` (would
succeed), an upgrade run over a counter database executes `a` only,
records only `a`, and reports the failure tagged `b`. -/
theorem executor_stop_on_first_failure_witness :
    lazy_execute
        (fun f => Except.ok (MigrationModule.mk
          (fun n : Nat => if f == "b" then Except.error 7 else Except.ok (n + 1))
          (fun n : Nat => Except.ok n)))
        (["a"] ++ "b" :: ["c"]) true (DBState.mk 0 []) =
      (["a"], DBState.mk 1 ["a"], some ("b", 7)) ∧
      (∀ f ∈ ["a"], f ∈ (DBState.mk 1 ["a"] : DBState Nat).ledger) ∧
      "b" ∉ (DBState.mk 1 ["a"] : DBState Nat).ledger :=
  executor_stop_on_first_failure
    (fun f => Except.ok (MigrationModule.mk
      (fun n : Nat => if f == "b" then Except.error 7 else Except.ok (n + 1))
      (fun n : Nat => Except.ok n)))
    ["a"] ["c"] "b" (DBState.mk 0 []) (DBState.mk 1 ["a"])
    (MigrationModule.mk
      (fun n : Nat => if "b" == "b" then Except.error 7 else Except.ok (n + 1))
      (fun n : Nat => Except.ok n)) 7
    rfl rfl rfl (by decide) (by decide)

/-!
Ledger-schema atomicity (claim C4). `MigrationTool.apply` runs the unit's
capability and the matching ledger mutation (`save_migration_history` on
upgrade, `delete_migration_history` on downgrade) inside one
`Session.begin` unit-of-work, committed together. To express the resulting
invariant, the opaque database is instrumented: `Db := List String` tracks
exactly which units' forward capabilities are currently committed — unit
`f`'s forward capability adds `f`, its backward capability removes `f`,
and either may fail (roll back) according to an arbitrary oracle. The
invariant `LedgerMatchesSchema` — a history record exists iff the unit's
forward capability has been committed and not yet reverted — is preserved
by every executor run, in both directions, wherever failures occur.
-/

/-- Instrumented migration unit for claim C4: the database state is the
list of units whose forward capability is committed; `fails` is an
arbitrary failure oracle (by unit, direction and current state). -/
def instrModule (fails : String -> Bool -> List String -> Bool) (f : String) :
    MigrationModule (List String) Unit where
  upgradeFn := fun schema =>
    if fails f true schema then Except.error () else Except.ok (f :: schema)
  downgradeFn := fun schema =>
    if fails f false schema then Except.error ()
    else Except.ok (schema.filter (fun g => !(g == f)))

/-- The C4 invariant: a history record for `x` exists iff unit `x`'s
forward capability has been committed and not yet reverted. -/
def LedgerMatchesSchema (s : DBState (List String)) : Prop :=
  ∀ x, x ∈ s.ledger ↔ x ∈ s.db

/-- Claim C4: every executor step performs the unit's schema change and
the matching ledger mutation atomically in one unit-of-work, so the
invariant `LedgerMatchesSchema` is preserved by every run of the executor
over instrumented units — in either direction, under any failure pattern.
There is no reachable state where the schema change committed but the
ledger mutation did not, or vice versa. -/
theorem ledger_schema_atomicity (fails : String -> Bool -> List String -> Bool)
    (files : List String) (upgrade : Bool) (s : DBState (List String))
    (hinv : LedgerMatchesSchema s) :
    LedgerMatchesSchema
      (lazy_execute (fun f => Except.ok (instrModule fails f)) files upgrade s).2.1 := by
  induction files generalizing s with
  | nil => exact hinv
  | cons f rest ih =>
    unfold lazy_execute
    cases ha : apply f (select_capability upgrade (instrModule fails f))
        (db_update upgrade) s with
    | error e =>
      simp only [ha]
      exact hinv
    | ok s2 =>
      simp only [ha]
      apply ih
      unfold apply at ha
      cases upgrade with
      | true =>
        cases hc : select_capability true (instrModule fails f) s.db with
        | error e => rw [hc] at ha; cases ha
        | ok db2 =>
          rw [hc] at ha
          cases ha
          rw [select_capability_true] at hc
          unfold instrModule at hc
          simp only at hc
          by_cases hf : fails f true s.db = true
          · rw [if_pos hf] at hc; cases hc
          · rw [if_neg hf] at hc
            cases hc
            intro x
            simp only [db_update_true, save_migration_history, List.mem_append,
              List.mem_singleton, List.mem_cons]
            rw [hinv x]
            simp [or_comm]
      | false =>
        cases hc : select_capability false (instrModule fails f) s.db with
        | error e => rw [hc] at ha; cases ha
        | ok db2 =>
          rw [hc] at ha
          cases ha
          have hsel : select_capability false (instrModule fails f) =
              (instrModule fails f).downgradeFn := rfl
          rw [hsel] at hc
          unfold instrModule at hc
          simp only at hc
          by_cases hf : fails f false s.db = true
          · rw [if_pos hf] at hc; cases hc
          · rw [if_neg hf] at hc
            cases hc
            intro x
            have hdel : db_update false = delete_migration_history := rfl
            simp only [hdel, delete_migration_history, List.mem_filter,
              Bool.not_eq_true', beq_eq_false_iff_ne]
            rw [hinv x]

/-- Witness for C4: a mixed run (upgrade of `a` and `b` where `b` fails)
starting from the empty, invariant-satisfying state preserves the
invariant. -/
theorem ledger_schema_atomicity_witness :
    LedgerMatchesSchema
      (lazy_execute
        (fun f => Except.ok (instrModule (fun g up _ => g == "b" && up) f))
        ["a", "b", "c"] true (DBState.mk [] [])).2.1 :=
  ledger_schema_atomicity (fun g up _ => g == "b" && up) ["a", "b", "c"] true
    (DBState.mk [] []) (fun x => by simp)

/-- Schema-level model of `sqlalchemy.MetaData.create_all`, from its
documented semantics: the database schema is the list of existing table
names; with `checkfirst := true` existing tables are skipped ("create if
not exists"), while with `checkfirst := false` a `CREATE TABLE` statement
is issued unconditionally, which the database rejects when the table
already exists. -/
def metadata_create_all (checkfirst : Bool) (tables : List String)
    (schema : List String) : Except String (List String) :=
  tables.foldlM (fun acc tbl =>
    if acc.contains tbl then
      (if checkfirst then Except.ok acc
       else Except.error ("table " ++ tbl ++ " already exists"))
    else Except.ok (acc ++ [tbl])) schema

/-- Embedding of `create_history_table` (migration.py lines 99-101):
`Base.metadata.create_all(engine, checkfirst=False)`, where the metadata
holds the single table `migration_history`. -/
def create_history_table (schema : List String) : Except String (List String) :=
  metadata_create_all false ["migration_history"] schema

/-- Counterexample to claim C5: the claim says table creation uses a
"create if not exists" semantic so that a second initialization succeeds.
In the code `create_all` is called with `checkfirst=False`, so creating
the ledger table against a database that already has it fails: the first
initialization succeeds, and repeating it on the resulting schema errors. -/
theorem create_history_table_not_idempotent :
    create_history_table [] = Except.ok ["migration_history"] ∧
      create_history_table ["migration_history"] =
        Except.error "table migration_history already exists" :=
  ⟨rfl, rfl⟩

/-- Claim C5 as amended: ledger initialization is not idempotent at the
schema level. `create_history_table` issues an unconditional `CREATE
TABLE` (`checkfirst=False`), so it fails whenever the ledger table already
exists and succeeds exactly on a database without it; the "create if not
exists" behaviour the spec describes is what `checkfirst := true` would
give, which never fails. -/
theorem create_history_table_amended :
    (∀ schema, "migration_history" ∈ schema →
      create_history_table schema =
        Except.error "table migration_history already exists") ∧
    (∀ schema, "migration_history" ∉ schema →
      create_history_table schema = Except.ok (schema ++ ["migration_history"])) ∧
    (∀ schema, metadata_create_all true ["migration_history"] schema =
      Except.ok
        (if "migration_history" ∈ schema then schema
         else schema ++ ["migration_history"])) := by
  refine ⟨?_, ?_, ?_⟩
  · intro schema hmem
    have hc : schema.contains "migration_history" = true := List.elem_eq_true_of_mem hmem
    simp only [create_history_table, metadata_create_all, List.foldlM, hc, if_true,
      if_false, Bool.false_eq_true]
    rfl
  · intro schema hmem
    have hc : schema.contains "migration_history" = false := by
      rw [← Bool.not_eq_true]
      intro h
      exact hmem (List.mem_of_elem_eq_true h)
    simp only [create_history_table, metadata_create_all, List.foldlM, hc,
      Bool.false_eq_true, if_false]
    rfl
  · intro schema
    by_cases hmem : "migration_history" ∈ schema
    · have hc : schema.contains "migration_history" = true := List.elem_eq_true_of_mem hmem
      simp only [metadata_create_all, List.foldlM, hc, if_true, if_pos hmem]
      rfl
    · have hc : schema.contains "migration_history" = false := by
        rw [← Bool.not_eq_true]
        intro h
        exact hmem (List.mem_of_elem_eq_true h)
      simp only [metadata_create_all, List.foldlM, hc, Bool.false_eq_true, if_false,
        if_neg hmem]
      rfl

/-- Witness for the amended C5: re-creation on an initialized schema
fails; creation on a fresh schema succeeds; `checkfirst := true` would
succeed on both. -/
theorem create_history_table_amended_witness :
    create_history_table ["migration_history"] =
        Except.error "table migration_history already exists" ∧
      create_history_table [] = Except.ok ["migration_history"] ∧
      metadata_create_all true ["migration_history"] ["migration_history"] =
        Except.ok (if "migration_history" ∈ ["migration_history"]
          then ["migration_history"] else ["migration_history"] ++ ["migration_history"]) :=
  ⟨create_history_table_amended.1 ["migration_history"] (by decide),
    create_history_table_amended.2.1 [] (by decide),
    create_history_table_amended.2.2 ["migration_history"]⟩

/-!
Store discovery (claim C8). `MigrationTool.list_existing_migration_files`
(migration.py lines 142-148) iterates the migrations directory and keeps
`f.name` for every entry that is a regular file, whose name does not start
with `"__"` and is not exactly `".gitkeep"`, and sorts the names
ascending. A directory entry is modelled by its name plus the `is_file()`
test result; Python `sorted` (ascending, stable) is modelled by insertion
sort with the string order. -/

/-- One entry of the migrations directory: the filename and whether it is
a regular file. -/
structure DirEntry where
  name : String
  isFile : Bool
deriving DecidableEq

/-- Model of Python `str.startswith` on the underlying character lists. -/
def py_startswith (s p : String) : Bool :=
  p.toList.isPrefixOf s.toList

/-- Embedding of `MigrationTool.list_existing_migration_files`
(migration.py lines 142-148). -/
def list_existing_migration_files (entries : List DirEntry) : List String :=
  List.insertionSort (fun a b : String => a ≤ b)
    ((entries.filter (fun f =>
      f.isFile && !(py_startswith f.name "__") && !(f.name == ".gitkeep"))).map
        (fun f => f.name))

/-- Counterexample to claim C8: discovery does not exclude every
hidden/system file. A directory containing the regular hidden file
`.DS_Store` yields it as a discovered identifier, because the only names
excluded are those starting with `"__"` and the exact name `".gitkeep"`. -/
theorem discovery_includes_hidden_file :
    list_existing_migration_files [DirEntry.mk ".DS_Store" true] = [".DS_Store"] ∧
      py_startswith ".DS_Store" "." = true :=
  ⟨rfl, rfl⟩

/-- Claim C8 as amended: `list_existing_migration_files` returns the names
of the regular files in the directory sorted ascending, excluding exactly
the entries whose name starts with `"__"` and the entry named `".gitkeep"`
— not every hidden/system file. -/
theorem discovery_listing (entries : List DirEntry) :
    (list_existing_migration_files entries).Sorted (fun a b : String => a ≤ b) ∧
    ∀ x, x ∈ list_existing_migration_files entries ↔
      ∃ e ∈ entries, e.name = x ∧ e.isFile = true ∧
        py_startswith x "__" = false ∧ x ≠ ".gitkeep" := by
  constructor
  · exact List.sorted_insertionSort _ _
  · intro x
    rw [list_existing_migration_files, List.mem_insertionSort]
    simp only [List.mem_map, List.mem_filter, Bool.and_eq_true, Bool.not_eq_true',
      beq_eq_false_iff_ne]
    constructor
    · rintro ⟨e, ⟨he, hconj⟩, rfl⟩
      exact ⟨e, he, rfl, hconj.1.1, hconj.1.2, hconj.2⟩
    · rintro ⟨e, he, rfl, hf, hs, hg⟩
      exact ⟨e, ⟨he, ⟨hf, hs⟩, hg⟩, rfl⟩

/-!
Status reporting (claim C10). `MigrationTool.list_all_migrations`
(migration.py lines 267-305) reads the history rows — when
`history_limit` is truthy, the most recent `history_limit` rows by
filename, re-sorted ascending via the subquery + join; otherwise all rows
ascending — and then appends one pending entry per file returned by
`list_migrations_to_upgrade()` with no target. Python `if history_limit:`
is falsy both for `None` and for `0`. A history row is modelled with an
opaque `executed_at` payload; `parse_filename` keeps the `datetime_str`
field it extracts (the `strptime` conversion of that fixed-format string
carries no information any claim depends on). -/

/-- One row of the `migration_history` table, with an opaque
`executed_at` timestamp. -/
structure MigrationHistoryRow (T : Type) where
  filename : String
  executed_at : T

/-- Status row corresponding to `MigrationInfo` (migration.py lines
46-49); `created_at` holds the `datetime_str` part parsed out of the
filename. -/
structure MigrationInfo (T : Type) where
  filename : String
  created_at : String
  executed_at : Option T

/-- Helper for `parse_filename_parts`: split a character list at the first
occurrence of the separator (Python `split(sep, maxsplit=1)` succeeding
only when the separator occurs). -/
def splitOnceAux (sep : List Char) (acc : List Char) :
    List Char → Option (List Char × List Char)
  | [] => none
  | c :: cs =>
    if sep.isPrefixOf (c :: cs) then some (acc.reverse, (c :: cs).drop sep.length)
    else splitOnceAux sep (c :: acc) cs

/-- Embedding of the string-splitting part of `parse_filename`
(migration.py lines 52-61): drop everything from the first `"."` on, then
split on the first `"__"` into timestamp part and description; a filename
with no `"__"` makes the Python unpacking raise `ValueError` (`none`). -/
def parse_filename_parts (filename : String) : Option (String × String) :=
  let base := filename.toList.takeWhile (fun c => !(c == '.'))
  match splitOnceAux ['_', '_'] [] base with
  | none => none
  | some (d, rest) => some (String.mk d, String.mk rest)

/-- Embedding of `MigrationTool.list_all_migrations` (migration.py lines
267-305) as a function of the directory entries and the history rows it
reads. Failure (`none`) happens exactly when some listed filename cannot
be split by `parse_filename`. -/
def list_all_migrations {T : Type} (entries : List DirEntry)
    (rows : List (MigrationHistoryRow T)) (history_limit : Option Nat) :
    Option (List (MigrationInfo T)) :=
  let sortedRows := List.insertionSort
    (fun a b : MigrationHistoryRow T => a.filename ≤ b.filename) rows
  let limitedRows :=
    match history_limit with
    | none => sortedRows
    | some n => if n = 0 then sortedRows else (sortedRows.reverse.take n).reverse
  let existing := list_existing_migration_files entries
  let applied := List.insertionSort (fun a b : String => a ≤ b)
    (rows.map (fun r => r.filename))
  let pend :=
    match list_migrations_to_upgrade existing applied none with
    | Except.ok l => l
    | Except.error _ => []
  do
    let appliedInfos ← limitedRows.mapM (fun r =>
      (parse_filename_parts r.filename).map
        (fun p => MigrationInfo.mk r.filename p.1 (some r.executed_at)))
    let pendingInfos ← pend.mapM (fun f =>
      (parse_filename_parts f).map (fun p => MigrationInfo.mk f p.1 none))
    pure (appliedInfos ++ pendingInfos)

/-- Claim C10 (implicit): a history limit of `0` means unlimited, not
zero. `list_all_migrations` with `history_limit = some 0` is identical to
`list_all_migrations` with no limit — every applied record followed by all
pending identifiers — because Python `if history_limit:` is falsy for
`0`. -/
theorem history_limit_zero_is_unlimited {T : Type} (entries : List DirEntry)
    (rows : List (MigrationHistoryRow T)) :
    list_all_migrations entries rows (some 0) =
      list_all_migrations entries rows none := rfl

/-!
Identifier generation (claim C7). `MigrationTool.generate_migration`
(migration.py lines 237-243) names the new unit
`timestamp.strftime("%Y%m%d_%H%M_%S%f") + "__" + description.replace(" ", "_") + ".py"`
with `timestamp = datetime.now(UTC)`. Every `strftime` field of
`DATETIME_FMT` is rendered zero-padded at fixed width (4 digits for `%Y`,
2 for `%m %d %H %M %S`, 6 for `%f`), so the timestamp part of the name is
a fixed-width digit string of length 22. A timestamp is modelled by its
rendered fields; `Timestamp.Valid` bounds each field by its digit width
(true of every real `datetime` value). -/

/-- The fields `datetime.strftime` renders for `DATETIME_FMT`. -/
structure Timestamp where
  year : Nat
  month : Nat
  day : Nat
  hour : Nat
  minute : Nat
  second : Nat
  microsecond : Nat
deriving DecidableEq

/-- Each field fits its rendered digit width (every value produced by
`datetime.now` satisfies this). -/
@[reducible]
def Timestamp.Valid (t : Timestamp) : Prop :=
  t.year < 10000 ∧ t.month < 100 ∧ t.day < 100 ∧ t.hour < 100 ∧
    t.minute < 100 ∧ t.second < 100 ∧ t.microsecond < 1000000

/-- Zero-padded fixed-width decimal rendering of a number, most
significant digit first, as `strftime` renders each field. -/
def padNum : Nat → Nat → List Char
  | 0, _ => []
  | w + 1, n => padNum w (n / 10) ++ [Nat.digitChar (n % 10)]

/-- Rendering of `timestamp.strftime("%Y%m%d_%H%M_%S%f")`. -/
def strftimeChars (t : Timestamp) : List Char :=
  padNum 4 t.year ++ (padNum 2 t.month ++ (padNum 2 t.day ++ (['_'] ++
    (padNum 2 t.hour ++ (padNum 2 t.minute ++ (['_'] ++
      (padNum 2 t.second ++ padNum 6 t.microsecond)))))))

/-- Embedding of the filename built by `MigrationTool.generate_migration`
(migration.py lines 237-243): timestamp rendering, the `"__"` separator,
the description with spaces replaced by underscores, and the `".py"`
suffix. -/
def generate_migration_filename (t : Timestamp) (description : String) : String :=
  String.mk (strftimeChars t ++
    ('_' :: '_' :: (description.toList.map (fun c => if c == ' ' then '_' else c) ++
      ['.', 'p', 'y'])))

/-- Chronological order on timestamps: lexicographic by field, most
significant first. -/
@[reducible]
def Timestamp.chronoLT (a b : Timestamp) : Prop :=
  a.year < b.year ∨ (a.year = b.year ∧ (a.month < b.month ∨ (a.month = b.month ∧
    (a.day < b.day ∨ (a.day = b.day ∧ (a.hour < b.hour ∨ (a.hour = b.hour ∧
      (a.minute < b.minute ∨ (a.minute = b.minute ∧ (a.second < b.second ∨
        (a.second = b.second ∧ a.microsecond < b.microsecond)))))))))))

/-- Appending to both sides of a lexicographic comparison after a shared
block keeps the comparison. -/
theorem lex_append_common {p a b : List Char} (h : List.Lex (· < ·) a b) :
    List.Lex (· < ·) (p ++ a) (p ++ b) := by
  induction p with
  | nil => exact h
  | cons c cs ih => exact List.Lex.cons ih

/-- A lexicographic comparison of equal-length blocks decides the
comparison of any continuations. -/
theorem lex_append_block : ∀ {a b : List Char}, List.Lex (· < ·) a b →
    a.length = b.length → ∀ (r1 r2 : List Char),
      List.Lex (· < ·) (a ++ r1) (b ++ r2) := by
  intro a b h
  induction h with
  | nil =>
    intro hlen
    simp at hlen
  | cons h ih =>
    intro hlen r1 r2
    exact List.Lex.cons (ih (Nat.succ.inj hlen) r1 r2)
  | rel hr =>
    intro hlen r1 r2
    exact List.Lex.rel hr

/-- The rendering of a field has exactly its width. -/
theorem padNum_length (w : Nat) : ∀ n, (padNum w n).length = w := by
  induction w with
  | zero => intro n; rfl
  | succ w ih => intro n; simp [padNum, ih]

/-- Digit characters compare like the digits they render. -/
theorem digitChar_lt_digitChar :
    ∀ a, a < 10 → ∀ b, b < 10 → a < b → Nat.digitChar a < Nat.digitChar b := by
  decide

/-- Zero-padded fixed-width rendering is strictly monotone: a smaller
number in the same width renders to a lexicographically smaller block. -/
theorem padNum_lex (w : Nat) : ∀ n1 n2, n1 < n2 → n2 < 10 ^ w →
    List.Lex (· < ·) (padNum w n1) (padNum w n2) := by
  induction w with
  | zero =>
    intro n1 n2 h h2
    exact absurd h (by omega)
  | succ w ih =>
    intro n1 n2 h h2
    have hq : n1 / 10 ≤ n2 / 10 := Nat.div_le_div_right (le_of_lt h)
    rcases lt_or_eq_of_le hq with hd | hd
    · have hb : n2 / 10 < 10 ^ w := by
        rw [Nat.div_lt_iff_lt_mul (by norm_num)]
        calc n2 < 10 ^ (w + 1) := h2
        _ = 10 ^ w * 10 := by ring
      simp only [padNum]
      exact lex_append_block (ih _ _ hd hb)
        (by rw [padNum_length, padNum_length]) _ _
    · have hm : n1 % 10 < n2 % 10 := by
        have e1 := Nat.div_add_mod n1 10
        have e2 := Nat.div_add_mod n2 10
        omega
      simp only [padNum, hd]
      exact lex_append_common (List.Lex.rel
        (digitChar_lt_digitChar _ (Nat.mod_lt _ (by norm_num)) _
          (Nat.mod_lt _ (by norm_num)) hm))

/-- Chronologically ordered valid timestamps render to lexicographically
ordered fixed-width blocks. -/
theorem strftimeChars_lex (t1 t2 : Timestamp) (h2 : t2.Valid)
    (hlt : Timestamp.chronoLT t1 t2) :
    List.Lex (· < ·) (strftimeChars t1) (strftimeChars t2) := by
  obtain ⟨hy2, hmo2, hd2, hh2, hmi2, hs2, hus2⟩ := h2
  unfold strftimeChars
  have hpl : ∀ w n1 n2, (padNum w n1).length = (padNum w n2).length := by
    intro w n1 n2
    rw [padNum_length, padNum_length]
  rcases hlt with h | ⟨ey, h⟩
  · exact lex_append_block (padNum_lex 4 _ _ h hy2) (hpl 4 _ _) _ _
  rw [ey]
  rcases h with h | ⟨emo, h⟩
  · exact lex_append_common (lex_append_block (padNum_lex 2 _ _ h hmo2) (hpl 2 _ _) _ _)
  rw [emo]
  rcases h with h | ⟨ed, h⟩
  · exact lex_append_common (lex_append_common
      (lex_append_block (padNum_lex 2 _ _ h hd2) (hpl 2 _ _) _ _))
  rw [ed]
  rcases h with h | ⟨eh, h⟩
  · exact lex_append_common (lex_append_common (lex_append_common (lex_append_common
      (lex_append_block (padNum_lex 2 _ _ h hh2) (hpl 2 _ _) _ _))))
  rw [eh]
  rcases h with h | ⟨emi, h⟩
  · exact lex_append_common (lex_append_common (lex_append_common (lex_append_common
      (lex_append_common
        (lex_append_block (padNum_lex 2 _ _ h hmi2) (hpl 2 _ _) _ _)))))
  rw [emi]
  rcases h with h | ⟨es, h⟩
  · exact lex_append_common (lex_append_common (lex_append_common (lex_append_common
      (lex_append_common (lex_append_common (lex_append_common
        (lex_append_block (padNum_lex 2 _ _ h hs2) (hpl 2 _ _) _ _)))))))
  rw [es]
  exact lex_append_common (lex_append_common (lex_append_common (lex_append_common
    (lex_append_common (lex_append_common (lex_append_common (lex_append_common
      (padNum_lex 6 _ _ h hus2))))))))

/-- The rendered timestamp block has fixed width 22. -/
theorem strftimeChars_length (t : Timestamp) : (strftimeChars t).length = 22 := by
  simp [strftimeChars, padNum_length]

/-- Claim C7: identifier order is chronological. For any two units whose
creation timestamps are valid and chronologically ordered, the generated
filenames compare lexicographically in the same order, whatever the
descriptions are — in particular even when the description suffixes sort
in reverse alphabetical order. -/
theorem identifier_order_chronological (t1 t2 : Timestamp) (d1 d2 : String)
    (h1 : t1.Valid) (h2 : t2.Valid) (hlt : Timestamp.chronoLT t1 t2) :
    generate_migration_filename t1 d1 < generate_migration_filename t2 d2 := by
  rw [String.lt_iff_toList_lt]
  show List.Lex (· < ·) (strftimeChars t1 ++ _) (strftimeChars t2 ++ _)
  exact lex_append_block (strftimeChars_lex t1 t2 h2 hlt)
    (by rw [strftimeChars_length, strftimeChars_length]) _ _

/-- Witness for C7: the unit created at 2024-01-15 10:30:00 with
description `zzz first` sorts before the unit created at
2024-01-15 11:00:00 with description `aaa second`, despite the reverse
alphabetical descriptions. -/
theorem identifier_order_chronological_witness :
    generate_migration_filename (Timestamp.mk 2024 1 15 10 30 0 0) "zzz first" <
      generate_migration_filename (Timestamp.mk 2024 1 15 11 0 0 0) "aaa second" :=
  identifier_order_chronological (Timestamp.mk 2024 1 15 10 30 0 0)
    (Timestamp.mk 2024 1 15 11 0 0 0) "zzz first" "aaa second"
    (by decide) (by decide) (by decide)

end MigrationsTool
